import Mathlib

/-!
A verification development for the `dhs_wow_data` web application
(`src/website/app.js` and its map client).  The JavaScript source is
shallowly embedded: JS numbers are idealized as exact rationals extended
with NaN and signed Infinity (no double rounding or overflow), strings are
Lean `String`s manipulated through `List Char` so that every operation is
structurally recursive and kernel-evaluable, and JS objects (string-keyed,
insertion-ordered, last-write-wins) are association lists.
-/

/-- An unnormalized exact fraction: `num / den` with `den > 0` maintained by
construction at every use site.  It stands for a finite JS number; keeping it
unnormalized (no gcd) keeps all arithmetic kernel-reducible.  The source never
compares numbers for equality, so the representation's structural equality is
never asked to stand for value equality. -/
structure Frac where
  num : Int
  den : Int
deriving DecidableEq, Repr

/-- The fraction for an integer. -/
def Frac.ofInt (n : Int) : Frac := ⟨n, 1⟩

/-- Exact addition of fractions. -/
def Frac.add (a b : Frac) : Frac := ⟨a.num * b.den + b.num * a.den, a.den * b.den⟩

/-- Exact division of fractions (`b.num ≠ 0` at every use site); the sign of
`b` is moved into the numerator so the denominator stays positive. -/
def Frac.div (a b : Frac) : Frac :=
  if b.num < 0 then ⟨-(a.num * b.den), a.den * (-b.num)⟩
  else ⟨a.num * b.den, a.den * b.num⟩

/-- Whether the value is strictly negative (the denominator is positive). -/
def Frac.isNeg (a : Frac) : Bool := a.num < 0

/-- The absolute value. -/
def Frac.abs (a : Frac) : Frac := ⟨|a.num|, a.den⟩

/-- Whether the value is zero. -/
def Frac.isZero (a : Frac) : Bool := a.num = 0

/-- `⌊a * 10^f + 1/2⌋` as an integer, computed by floor division:
ECMA-262's `toFixed` digit count ("pick the larger n" on a tie) applied to a
nonnegative value.  `Int.fdiv` is floor division, and the denominator is
positive. -/
def Frac.round10 (a : Frac) (f : Nat) : Int :=
  Int.fdiv (a.num * (10 ^ f : Int) * 2 + a.den) (2 * a.den)

/-- A JS number: NaN, a signed infinity, or a finite exact rational. -/
inductive JSNum where
  | nan : JSNum
  | inf (neg : Bool) : JSNum
  | num (q : Frac) : JSNum
deriving DecidableEq, Repr

/-- JS `+` on numbers (idealized: finite arithmetic is exact). -/
def jsAdd : JSNum → JSNum → JSNum
  | JSNum.nan, _ => JSNum.nan
  | _, JSNum.nan => JSNum.nan
  | JSNum.inf a, JSNum.inf b => if a = b then JSNum.inf a else JSNum.nan
  | JSNum.inf a, JSNum.num _ => JSNum.inf a
  | JSNum.num _, JSNum.inf b => JSNum.inf b
  | JSNum.num a, JSNum.num b => JSNum.num (a.add b)

/-- JS `/` on numbers (idealized: finite division is exact; in this
development the divisor is always a positive integer count). -/
def jsDiv : JSNum → JSNum → JSNum
  | JSNum.nan, _ => JSNum.nan
  | _, JSNum.nan => JSNum.nan
  | JSNum.inf _, JSNum.inf _ => JSNum.nan
  | JSNum.inf a, JSNum.num b =>
    if b.isZero then JSNum.inf a else JSNum.inf (a ≠ b.isNeg)
  | JSNum.num _, JSNum.inf _ => JSNum.num (Frac.ofInt 0)
  | JSNum.num a, JSNum.num b =>
    if b.isZero then (if a.isZero then JSNum.nan else JSNum.inf a.isNeg)
    else JSNum.num (a.div b)

/-- JS `isNaN` after `parseFloat` (the argument is already a number here). -/
def jsIsNaN : JSNum → Bool
  | JSNum.nan => true
  | _ => false

/-- The whitespace set shared by JS `String.prototype.trim`, the regex class
`\s`, and `parseFloat`'s leading-whitespace skip: the common members (tab,
LF, VT, FF, CR, space, NBSP, line/paragraph separator, BOM).  Rare Unicode
`Zs` members are omitted — an idealization that does not affect the data this
program handles. -/
def jsWs (c : Char) : Bool :=
  c = ' ' ∨ c = '\t' ∨ c = '\n' ∨ c = '\x0b' ∨ c = '\x0c' ∨ c = '\r' ∨
  c = '\u00a0' ∨ c = '\u2028' ∨ c = '\u2029' ∨ c = '\ufeff'

/-- JS `trim` on a character list: drop leading and trailing whitespace. -/
def trimChars (cs : List Char) : List Char :=
  ((cs.dropWhile jsWs).reverse.dropWhile jsWs).reverse

/-- JS `toLowerCase`, idealized to ASCII case mapping (`Char.toLower`); the
location names and category strings this program handles are ASCII. -/
def toLowerStr (s : String) : String := String.mk (s.toList.map Char.toLower)

/-- The numeric value of a digit character. -/
def digitVal (c : Char) : Nat := c.toNat - '0'.toNat

/-- The natural number denoted by a list of decimal digit characters
(empty list denotes 0). -/
def digitsToNat (cs : List Char) : Nat :=
  cs.foldl (fun n c => n * 10 + digitVal c) 0

/-- `q * 10^e` for an exponent read from a decimal literal. -/
def Frac.applyExp (q : Frac) (e : Int) : Frac :=
  if 0 ≤ e then ⟨q.num * (10 ^ e.toNat : Int), q.den⟩
  else ⟨q.num, q.den * (10 ^ (-e).toNat : Int)⟩

/-- An optional leading `+`/`-`: `(negative, rest)`. -/
def parseSign (cs : List Char) : Bool × List Char :=
  if cs.head? = some '-' then (true, cs.tail)
  else if cs.head? = some '+' then (false, cs.tail)
  else (false, cs)

/-- Whether `pre` is a prefix of `cs` (character lists). -/
def isPrefixList : List Char → List Char → Bool
  | [], _ => true
  | _ :: _, [] => false
  | a :: as, b :: bs => a = b && isPrefixList as bs

/-- The optional exponent part `[eE][+-]?digits` of a JS decimal literal; a
malformed exponent is not consumed (contributes 0, as `parseFloat` takes the
longest valid literal prefix). -/
def parseExpPart (cs : List Char) : Int :=
  match cs with
  | c :: rest =>
    if c = 'e' ∨ c = 'E' then
      let (en, rest2) := parseSign rest
      let ds := rest2.takeWhile Char.isDigit
      if ds.isEmpty then 0
      else if en then -(digitsToNat ds : Int) else (digitsToNat ds : Int)
    else 0
  | [] => 0

/-- JS `parseFloat`: skip leading whitespace, read an optional sign, then
either the literal `Infinity` or the longest decimal-literal prefix
`digits [. digits] [exponent]` (also `.digits`); anything else is NaN.
Idealized to exact rationals: no double rounding and no overflow of huge
finite literals to Infinity. -/
def parseFloatJS (s : String) : JSNum :=
  let cs := s.toList.dropWhile jsWs
  let (neg, cs1) := parseSign cs
  if isPrefixList "Infinity".toList cs1 then JSNum.inf neg
  else
    let ip := cs1.takeWhile Char.isDigit
    let cs2 := cs1.dropWhile Char.isDigit
    let fp := if cs2.head? = some '.' then cs2.tail.takeWhile Char.isDigit else []
    let cs3 := if cs2.head? = some '.' then cs2.tail.dropWhile Char.isDigit else cs2
    if ip.isEmpty && fp.isEmpty then JSNum.nan
    else
      let e := parseExpPart cs3
      let mant : Frac := ⟨(digitsToNat ip * 10 ^ fp.length + digitsToNat fp : Nat),
                          (10 ^ fp.length : Nat)⟩
      let v := mant.applyExp e
      JSNum.num (if neg then ⟨-v.num, v.den⟩ else v)

/-- The finite value of a parsed float, with 0 for NaN/Infinity.  Every use
site feeds it strings of the shape `-?\d+\.?\d*`, which always parse finite
(proved in the claim C7 theorem), so the default is never taken. -/
def parseFloatNum (s : String) : Frac :=
  match parseFloatJS s with
  | JSNum.num q => q
  | _ => Frac.ofInt 0

/-- ECMA-262 `Number.prototype.toFixed(f)` on a finite value: the sign is
taken first (so a negative value rounding to zero keeps its `-`), then the
magnitude is rounded to `n / 10^f` picking the larger `n` on ties, and the
digit string of `n` gets a decimal point inserted `f` places from the right.
The `x ≥ 10^21` fallback to exponent form cannot arise for the averages this
program formats and is not modelled for finite values. -/
def toFixedFin (f : Nat) (q : Frac) : String :=
  let s := if q.isNeg then "-" else ""
  let n := (q.abs.round10 f).toNat
  let m := Nat.toDigits 10 n
  if f = 0 then s ++ String.mk m
  else
    let m' := List.replicate (f + 1 - m.length) '0' ++ m
    s ++ String.mk (m'.take (m'.length - f)) ++ "." ++ String.mk (m'.drop (m'.length - f))

/-- `toFixed` on a JS number: NaN and the infinities format as their
`ToString` images. -/
def toFixedJS (f : Nat) : JSNum → String
  | JSNum.nan => "NaN"
  | JSNum.inf neg => if neg then "-Infinity" else "Infinity"
  | JSNum.num q => toFixedFin f q

/-- The `toFixed(4)` component of the grouping key, embedded as the pair
(sign is `-`, rounded scaled magnitude): the formatted string is exactly
`sign ++ digits-with-point`, which this pair determines and is determined by,
so equality of formatted components is equality of these pairs. -/
def toFixed4Key (q : Frac) : Bool × Nat :=
  (q.isNeg, (q.abs.round10 4).toNat)

/-- The number denoted by a formatted `toFixed(4)` component: the claim
language "rounded to 4 decimal places" reads the key numerically, which
identifies `-0.0000` with `0.0000`. -/
def keyNum (k : Bool × Nat) : Int :=
  if k.1 then -(k.2 : Int) else (k.2 : Int)

example : parseFloatJS "30" = JSNum.num ⟨30, 1⟩ := by decide
example : parseFloatJS "" = JSNum.nan := by decide
example : parseFloatJS "abc" = JSNum.nan := by decide
example : parseFloatJS "Infinity" = JSNum.inf false := by decide
example : parseFloatJS " -3.5e1" = JSNum.num ⟨-350, 10⟩ := by decide
example : parseFloatJS ".5x" = JSNum.num ⟨5, 10⟩ := by decide
example : toFixedFin 1 ⟨305, 10⟩ = "30.5" := by decide
example : toFixedFin 1 ⟨-1, 100000⟩ = "-0.0" := by decide
example : toFixedFin 4 ⟨398283, 10000⟩ = "39.8283" := by decide

/-- JS regex `.` (no `s` flag): any character but a line terminator. -/
def isDotChar (c : Char) : Bool :=
  !(c = '\n' ∨ c = '\r' ∨ c = '\u2028' ∨ c = '\u2029')

/-- The regex piece `-?\d+\.?\d*` at the head of `cs`: greedy and
backtracking-free (a digit run can never be shortened to expose the `,` or
`)` required next).  Returns the matched characters and the rest. -/
def parseNum (cs : List Char) : Option (List Char × List Char) :=
  let neg := cs.head? = some '-'
  let cs1 := if neg then cs.tail else cs
  let ip := cs1.takeWhile Char.isDigit
  if ip.isEmpty then none
  else
    let cs2 := cs1.dropWhile Char.isDigit
    let dot := cs2.head? = some '.'
    let cs3 := if dot then cs2.tail else cs2
    let fp := cs3.takeWhile Char.isDigit
    some ((if neg then ['-'] else []) ++ ip ++ (if dot then ['.'] else []) ++ fp,
          cs3.dropWhile Char.isDigit)

/-- The regex piece `:\s*\((-?\d+\.?\d*),\s*(-?\d+\.?\d*)\)` at the head of
`cs` (note: no whitespace is allowed after `(`, around the numbers, or
before `)` — exactly the source pattern).  Returns the two number strings
and the rest. -/
def parseTail (cs : List Char) : Option (List Char × List Char × List Char) :=
  if cs.head? = some ':' then
    let cs2 := cs.tail.dropWhile jsWs
    if cs2.head? = some '(' then
      match parseNum cs2.tail with
      | some (la, cs4) =>
        if cs4.head? = some ',' then
          match parseNum (cs4.tail.dropWhile jsWs) with
          | some (ln, cs7) =>
            if cs7.head? = some ')' then some (la, ln, cs7.tail) else none
          | none => none
        else none
      | none => none
    else none
  else none

/-- The lazy group `(.+?)` followed by `parseTail`: the group takes one more
(non-line-terminator) character at a time, trying the continuation after
each — shortest match first, exactly JS lazy semantics.  `acc` holds the
group characters taken so far. -/
def tryGroup : List Char → List Char → Option (List Char × List Char × List Char × List Char)
  | [], _ => none
  | c :: rest, acc =>
    if isDotChar c then
      match parseTail rest with
      | some (la, ln, r) => some (acc ++ [c], la, ln, r)
      | none => tryGroup rest (acc ++ [c])
    else none

/-- Backtracking over the greedy `\s*` after `✓`: try consuming `j`
whitespace characters, longest first (regex priority), handing the rest to
the lazy group. -/
def tryWsBack (cs1 : List Char) : Nat → Option (List Char × List Char × List Char × List Char)
  | 0 => tryGroup cs1 []
  | j + 1 =>
    match tryGroup (cs1.drop (j + 1)) [] with
    | some r => some r
    | none => tryWsBack cs1 j

/-- A whole-pattern match attempt at this position: `✓`, then the
backtracked `\s*`, then lazy group and tail. -/
def matchCheck (cs : List Char) : Option (List Char × List Char × List Char × List Char) :=
  if cs.head? = some '✓' then tryWsBack cs.tail (cs.tail.takeWhile jsWs).length
  else none

/-- The `regex.exec` loop: scan left to right, at each position attempt a
match; on success emit `(group, lat, lng)` and continue after the match, on
failure advance one character.  The fuel argument makes the recursion
structural; a successful match always consumes at least two characters, so
fuel equal to the list length never runs out (`findAllAux_fuel_irrel`). -/
def findAllAux : Nat → List Char → List (List Char × List Char × List Char)
  | 0, _ => []
  | _, [] => []
  | fuel + 1, c :: cs =>
    match matchCheck (c :: cs) with
    | some (g, la, ln, rest) => (g, la, ln) :: findAllAux fuel rest
    | none => findAllAux fuel cs

/-- All matches of the geocode-line pattern in `content`, in order. -/
def findAllMatches (content : String) : List (List Char × List Char × List Char) :=
  findAllAux content.toList.length content.toList

/-- JS object index-read on an insertion-ordered association list. -/
def jsObjGet {α : Type} (m : List (String × α)) (k : String) : Option α :=
  (m.find? (fun p => decide (p.1 = k))).map (·.2)

/-- JS object index-write: an existing key keeps its position and gets the
new value (last write wins), a new key is appended. -/
def jsObjSet {α : Type} : List (String × α) → String → α → List (String × α)
  | [], k, v => [(k, v)]
  | (k', v') :: rest, k, v =>
    if k' = k then (k', v) :: rest else (k', v') :: jsObjSet rest k v

/-- A coordinate pair (finite JS numbers). -/
structure Coords where
  lat : Frac
  lng : Frac
deriving DecidableEq, Repr

/-- The mapping key contributed by one pattern match:
`match[1].trim().toLowerCase()`. -/
def geoKeyOfMatch (t : List Char × List Char × List Char) : String :=
  toLowerStr (String.mk (trimChars t.1))

/-- The coordinates contributed by one pattern match:
`{lat: parseFloat(match[2]), lng: parseFloat(match[3])}`. -/
def geoValOfMatch (t : List Char × List Char × List Char) : Coords :=
  ⟨parseFloatNum (String.mk t.2.1), parseFloatNum (String.mk t.2.2)⟩

/-- `parseGeocodeLocations` of `src/website/app.js` (parameterized by the
file content instead of reading it): every pattern match writes its key and
coordinates into the mapping. -/
def parseGeocodeLocations (content : String) : List (String × Coords) :=
  (findAllMatches content).foldl
    (fun m t => jsObjSet m (geoKeyOfMatch t) (geoValOfMatch t)) []

example : findAllMatches "✓ Springfield: (39.8, -89.6)" =
    [("Springfield".toList, "39.8".toList, "-89.6".toList)] := by decide
example : parseGeocodeLocations "✓ Springfield: (39.8, -89.6)" =
    [("springfield", ⟨⟨398, 10⟩, ⟨-896, 10⟩⟩)] := by decide
example : parseGeocodeLocations "no matches here" = [] := by decide
example : parseGeocodeLocations "✓ A: (1, 2)\njunk\n✓ A: (3, 4)" =
    [("a", ⟨⟨3, 1⟩, ⟨4, 1⟩⟩)] := by decide

/-- A row of `transformed_df.csv` (`csv-parse` with `columns: true`): every
recognized column as a string; an absent or empty cell is the empty string,
which is exactly the falsy case of every guard the source applies to these
fields.  Dots in column names become underscores. -/
structure Record where
  ID : String
  NAME : String
  COUNTRY : String
  ARRESTED : String
  CRIME_CATEGORIES : String
  CONVICTED_OF : String
  GANG_AFFILIATION : String
  PICTURE_LOCAL : String
  DEEPFACE_age : String
  DEEPFACE_gender_dominant : String
  DEEPFACE_race_dominant : String
  DEEPFACE_emotion_dominant : String
deriving DecidableEq, Repr

/-- A record with every field empty, for building concrete test records. -/
def emptyRecord : Record :=
  ⟨"", "", "", "", "", "", "", "", "", "", "", ""⟩

/-- The derived Person pushed into a location group. -/
structure Person where
  id : String
  name : String
  country : String
  convictions : List String
  categories : List String
  gang : String
  mugshot : String
  age : Option JSNum
  gender : String
  race : String
  emotion : String
deriving DecidableEq, Repr

/-- A location group: coordinates and display name of the record that
created it, and the people pushed into it in input order. -/
structure LocationGroup where
  lat : Frac
  lng : Frac
  location : String
  people : List Person
deriving DecidableEq, Repr

/-- Drop the characters removed by `replace(/[\[\]']/g, '')`. -/
def stripBrq (cs : List Char) : List Char :=
  cs.filter (fun c => !(c = '[' ∨ c = ']' ∨ c = '\''))

/-- JS `split(',')`: the empty list of characters splits to one empty piece,
like `"".split(',') === [""]`. -/
def splitComma : List Char → List (List Char)
  | [] => [[]]
  | c :: rest =>
    if c = ',' then [] :: splitComma rest
    else
      match splitComma rest with
      | h :: t => (c :: h) :: t
      | [] => [[c]]

/-- JS `trim` packaged on `String`. -/
def trimStr (s : String) : String := String.mk (trimChars s.toList)

/-- The pseudo-list field parser of `processData`: on a truthy (nonempty)
field, strip `[` `]` `'`, split on commas, trim each piece, and keep the
truthy (nonempty) pieces; an empty field yields the empty list.  The
`try/catch` of the source cannot fire (string methods on strings do not
throw) and is not modelled. -/
def parsePseudoList (s : String) : List String :=
  if s = "" then []
  else ((splitComma (stripBrq s.toList)).map (fun p => String.mk (trimChars p))).filter
    (fun t => !(t = ""))

/-- JS `a.includes(b)` on strings, as character lists: `b` occurs
contiguously in `a` (`aux` recurses over `a`'s suffixes). -/
def strIncludesAux (b : List Char) : List Char → Bool
  | [] => b.isEmpty
  | c :: rest => isPrefixList b (c :: rest) || strIncludesAux b rest

/-- JS `a.includes(b)`: the empty string is included in everything. -/
def strIncludes (a b : List Char) : Bool := strIncludesAux b a

/-- Coordinate resolution of `processData`: exact object lookup of the
lowercased arrest location, else the first geocode entry (in insertion
order) whose key is a substring of the arrest location or vice versa, else
the fixed default (39.8283, -98.5795). -/
def findCoords (locations : List (String × Coords)) (arrestedLower : String) : Coords :=
  let coords0 := jsObjGet locations arrestedLower
  let coords1 :=
    match coords0 with
    | some c => some c
    | none =>
      (locations.find? (fun kv =>
        strIncludes arrestedLower.toList kv.1.toList ||
        strIncludes kv.1.toList arrestedLower.toList)).map (·.2)
  match coords1 with
  | some c => c
  | none => ⟨⟨398283, 10000⟩, ⟨-985795, 10000⟩⟩

/-- Node `path.basename` (posix): trailing separators dropped, then the
part after the last separator. -/
def pathBasename (p : String) : String :=
  let trimmed := (p.toList.reverse.dropWhile (fun c => c = '/')).reverse
  String.mk (trimmed.reverse.takeWhile (fun c => !(c = '/'))).reverse

/-- The characters `encodeURIComponent` leaves as-is. -/
def uriUnreserved (c : Char) : Bool :=
  c.isAlpha ∨ c.isDigit ∨ c = '-' ∨ c = '_' ∨ c = '.' ∨ c = '!' ∨ c = '~' ∨
  c = '*' ∨ c = '\'' ∨ c = '(' ∨ c = ')'

/-- The UTF-8 bytes of a character (as numbers 0..255). -/
def utf8Bytes (c : Char) : List Nat :=
  let n := c.toNat
  if n < 0x80 then [n]
  else if n < 0x800 then [0xC0 + n / 0x40, 0x80 + n % 0x40]
  else if n < 0x10000 then [0xE0 + n / 0x1000, 0x80 + (n / 0x40) % 0x40, 0x80 + n % 0x40]
  else [0xF0 + n / 0x40000, 0x80 + (n / 0x1000) % 0x40, 0x80 + (n / 0x40) % 0x40, 0x80 + n % 0x40]

/-- An uppercase hexadecimal digit. -/
def hexDigit (n : Nat) : Char :=
  if n < 10 then Char.ofNat ('0'.toNat + n) else Char.ofNat ('A'.toNat + n - 10)

/-- JS `encodeURIComponent`: unreserved characters kept, everything else
percent-encoded byte by byte (UTF-8, uppercase hex). -/
def encodeURIComponentJS (s : String) : String :=
  String.mk ((s.toList.map (fun c =>
    if uriUnreserved c then [c]
    else ((utf8Bytes c).map (fun b => ['%', hexDigit (b / 16), hexDigit (b % 16)])).flatten)).flatten)

/-- The Person built from a record by `processData` (coordinates do not
enter the person). -/
def mkPerson (record : Record) : Person :=
  { id := record.ID
    name := record.NAME
    country := record.COUNTRY
    convictions := parsePseudoList record.CONVICTED_OF
    categories := parsePseudoList record.CRIME_CATEGORIES
    gang := record.GANG_AFFILIATION
    mugshot := if record.PICTURE_LOCAL = "" then ""
               else "/mugshots/" ++ encodeURIComponentJS (pathBasename record.PICTURE_LOCAL)
    age := if record.DEEPFACE_age = "" then none else some (parseFloatJS record.DEEPFACE_age)
    gender := record.DEEPFACE_gender_dominant
    race := record.DEEPFACE_race_dominant
    emotion := record.DEEPFACE_emotion_dominant }

/-- The grouping key `lat.toFixed(4) + "," + lng.toFixed(4)`, embedded as
the pair of formatted components (see `toFixed4Key`: neither component can
contain the separator, so the string key and this pair determine each
other). -/
abbrev GroupKey := (Bool × Nat) × (Bool × Nat)

/-- The key of a coordinate pair. -/
def coordsKey (c : Coords) : GroupKey := (toFixed4Key c.lat, toFixed4Key c.lng)

/-- Append a person to the group of key `k` (object keys are unique, so
updating the first — only — occurrence is JS object update); a missing key
creates the group at the end with the record's coordinates and raw arrest
location as display name. -/
def pushPerson : List (GroupKey × LocationGroup) → GroupKey → Coords → String → Person →
    List (GroupKey × LocationGroup)
  | [], k, c, loc, p => [(k, ⟨c.lat, c.lng, loc, [p]⟩)]
  | (k', g) :: rest, k, c, loc, p =>
    if k' = k then (k', { g with people := g.people ++ [p] }) :: rest
    else (k', g) :: pushPerson rest k c loc p

/-- Bump a counter object entry (`m[k] = (m[k] || 0) + 1`). -/
def bumpCount : List (String × Nat) → String → List (String × Nat)
  | [], k => [(k, 1)]
  | (k', n) :: rest, k =>
    if k' = k then (k', n + 1) :: rest else (k', n) :: bumpCount rest k

/-- `Set.add`: insertion-ordered, deduplicating. -/
def addCategory (l : List String) (c : String) : List String :=
  if c ∈ l then l else l ++ [c]

/-- The accumulator of the `records.forEach` loop of `processData`. -/
structure AggState where
  locationGroups : List (GroupKey × LocationGroup)
  allCategories : List String
  totalMen : Nat
  totalWomen : Nat
  totalWithAge : Nat
  totalAge : JSNum
  countryCounts : List (String × Nat)
  gangCounts : List (String × Nat)
  categoryCounts : List (String × Nat)
  raceCounts : List (String × Nat)
deriving DecidableEq, Repr

/-- All accumulators start empty/zero. -/
def initAggState : AggState :=
  ⟨[], [], 0, 0, 0, JSNum.num (Frac.ofInt 0), [], [], [], []⟩

/-- One iteration of the `records.forEach` body, in source order: resolve
coordinates, parse categories (feeding the global category set and counts),
build the person and push it into its group, then the gender / age /
country / gang / race tallies. -/
def stepRecord (locations : List (String × Coords)) (s : AggState) (record : Record) :
    AggState :=
  let arrested := record.ARRESTED
  let arrestedLower := toLowerStr arrested
  let coords := findCoords locations arrestedLower
  let categories := parsePseudoList record.CRIME_CATEGORIES
  let s1 := { s with
    allCategories := categories.foldl addCategory s.allCategories
    categoryCounts := categories.foldl bumpCount s.categoryCounts }
  let s2 := { s1 with
    locationGroups := pushPerson s1.locationGroups (coordsKey coords) coords arrested
      (mkPerson record) }
  let gender := record.DEEPFACE_gender_dominant
  let s3 := if gender = "Man" then { s2 with totalMen := s2.totalMen + 1 }
            else if gender = "Woman" then { s2 with totalWomen := s2.totalWomen + 1 }
            else s2
  let age := parseFloatJS record.DEEPFACE_age
  let s4 := if jsIsNaN age then s3
            else { s3 with totalWithAge := s3.totalWithAge + 1
                           totalAge := jsAdd s3.totalAge age }
  let s5 := if record.COUNTRY = "" then s4
            else { s4 with countryCounts := bumpCount s4.countryCounts record.COUNTRY }
  let gang := record.GANG_AFFILIATION
  let s6 := if gang = "" ∨ trimStr gang = "" then s5
            else { s5 with gangCounts := bumpCount s5.gangCounts gang }
  let race := record.DEEPFACE_race_dominant
  if race = "" ∨ trimStr race = "" then s6
  else { s6 with raceCounts := bumpCount s6.raceCounts race }

/-- The sort comparator `(a, b) => b[1] - a[1]` (descending count), as the
stable merge sort Lean provides — JS `Array.prototype.sort` is stable. -/
def descByCount (a b : String × Nat) : Bool := decide (b.2 ≤ a.2)

/-- Sort count entries by count, descending. -/
def sortDesc (l : List (String × Nat)) : List (String × Nat) := l.mergeSort descByCount

/-- The JS default sort comparator on strings, idealized to code-point
lexicographic order (UTF-16 code-unit order differs only beyond the BMP). -/
def lexLeChars : List Char → List Char → Bool
  | [], _ => true
  | _ :: _, [] => false
  | a :: as, b :: bs => if a = b then lexLeChars as bs else decide (a.toNat < b.toNat)

/-- Code-point lexicographic order on strings. -/
def strLexLe (a b : String) : Bool := lexLeChars a.toList b.toList

/-- The global statistics object. -/
structure Stats where
  totalRecords : Nat
  totalMen : Nat
  totalWomen : Nat
  avgAge : String
  topCountries : List (String × Nat)
  topCategories : List (String × Nat)
  topGangs : List (String × Nat)
  raceDistribution : List (String × Nat)
deriving DecidableEq, Repr

/-- The aggregation result served by the app. -/
structure ProcessedData where
  locations : List LocationGroup
  categories : List String
  stats : Stats
deriving DecidableEq, Repr

/-- `processData` of `src/website/app.js`, parameterized by the two loaded
inputs (the geocode mapping and the record rows) instead of reading files. -/
def processData (locations : List (String × Coords)) (records : List Record) :
    ProcessedData :=
  let final := records.foldl (stepRecord locations) initAggState
  { locations := final.locationGroups.map (·.2)
    categories := final.allCategories.mergeSort strLexLe
    stats := {
      totalRecords := records.length
      totalMen := final.totalMen
      totalWomen := final.totalWomen
      avgAge := if 0 < final.totalWithAge
                then toFixedJS 1 (jsDiv final.totalAge (JSNum.num (Frac.ofInt final.totalWithAge)))
                else "N/A"
      topCountries := (sortDesc final.countryCounts).take 20
      topCategories := sortDesc final.categoryCounts
      topGangs := (sortDesc final.gangCounts).take 15
      raceDistribution := sortDesc final.raceCounts } }

/-- The category filter of `GET /api/locations`: map each group to a copy
whose people are those whose categories include the requested category,
then keep groups with at least one person left. -/
def filterByCategory (locs : List LocationGroup) (category : String) : List LocationGroup :=
  (locs.map (fun loc =>
    { loc with people := loc.people.filter (fun p => p.categories.contains category) })).filter
    (fun loc => decide (0 < loc.people.length))

/-- The `GET /api/locations` handler body: `category` is the query value
(`none` when absent; the empty string when present but empty, which is
falsy in `if (category && category !== 'all')`). -/
def apiLocations (locs : List LocationGroup) (category : Option String) : List LocationGroup :=
  match category with
  | none => locs
  | some c => if c ≠ "" ∧ c ≠ "all" then filterByCategory locs c else locs

/-- A request to the read-only JSON API. -/
inductive ApiRequest where
  | locations (category : Option String) : ApiRequest
  | stats : ApiRequest
deriving DecidableEq, Repr

/-- A JSON response body. -/
inductive ApiResponse where
  | locations (body : List LocationGroup) : ApiResponse
  | stats (body : Stats) : ApiResponse
deriving DecidableEq, Repr

/-- A request handler over the aggregated data (both handlers only read). -/
def handle (d : ProcessedData) : ApiRequest → ApiResponse
  | ApiRequest.locations cat => ApiResponse.locations (apiLocations d.locations cat)
  | ApiRequest.stats => ApiResponse.stats d.stats

/-- `getData`: the memoizing accessor over the nullable module-level cache,
as explicit state passing — computes and stores on first access, returns
the stored value afterwards. -/
def getData (geo : List (String × Coords)) (records : List Record) :
    Option ProcessedData → ProcessedData × Option ProcessedData
  | some d => (d, some d)
  | none => (processData geo records, some (processData geo records))

/-- Serve one request: read (or first compute) the cache, handle. -/
def serveOne (geo : List (String × Coords)) (records : List Record)
    (st : Option ProcessedData) (q : ApiRequest) : ApiResponse × Option ProcessedData :=
  let p := getData geo records st
  (handle p.1 q, p.2)

/-- Serve a request sequence, threading the cache state. -/
def serveAll (geo : List (String × Coords)) (records : List Record) :
    Option ProcessedData → List ApiRequest → List ApiResponse × Option ProcessedData
  | st, [] => ([], st)
  | st, q :: qs =>
    let p := serveOne geo records st q
    let r := serveAll geo records p.2 qs
    (p.1 :: r.1, r.2)

example : parsePseudoList "['Theft', 'Assault']" = ["Theft", "Assault"] := by decide
example : parsePseudoList "" = [] := by decide
example : pathBasename "/a/b/c.jpg" = "c.jpg" := by decide
example : encodeURIComponentJS "a b.jpg" = "a%20b.jpg" := by decide

/-- Total number of people across an association list of groups. -/
def sumPeopleKV (gs : List (GroupKey × LocationGroup)) : Nat :=
  (gs.map (fun e => e.2.people.length)).sum

/-- Total number of people across a list of groups. -/
def sumPeople (ls : List LocationGroup) : Nat :=
  (ls.map (fun g => g.people.length)).sum

theorem sumPeopleKV_push (gs : List (GroupKey × LocationGroup)) (k : GroupKey)
    (c : Coords) (loc : String) (p : Person) :
    sumPeopleKV (pushPerson gs k c loc p) = sumPeopleKV gs + 1 := by
  induction gs with
  | nil => simp [pushPerson, sumPeopleKV]
  | cons hd tl ih =>
    obtain ⟨k', g⟩ := hd
    by_cases h : k' = k
    · simp [pushPerson, h, sumPeopleKV]
      omega
    · simp [pushPerson, h, sumPeopleKV] at ih ⊢
      omega

theorem stepRecord_sum (geo : List (String × Coords)) (s : AggState) (r : Record) :
    sumPeopleKV (stepRecord geo s r).locationGroups = sumPeopleKV s.locationGroups + 1 := by
  simp only [stepRecord]
  repeat' split
  all_goals simp [sumPeopleKV_push]

theorem foldl_step_sum (geo : List (String × Coords)) (rs : List Record) (s : AggState) :
    sumPeopleKV (rs.foldl (stepRecord geo) s).locationGroups =
      sumPeopleKV s.locationGroups + rs.length := by
  induction rs generalizing s with
  | nil => simp
  | cons r rs ih =>
    simp only [List.foldl_cons, List.length_cons, ih, stepRecord_sum]
    omega

/-- C1: for every input record sequence and geocode mapping, the people
sequences of the unfiltered LocationGroups partition the input: their
lengths sum to the number of input records. -/
theorem c1_people_partition (geo : List (String × Coords)) (records : List Record) :
    sumPeople (processData geo records).locations = records.length := by
  have h := foldl_step_sum geo records initAggState
  simp only [processData, sumPeople, List.map_map] at *
  simpa [sumPeopleKV, initAggState, Function.comp] using h

/-- A concrete person whose only category is "Theft". -/
def personTheft : Person :=
  { id := "1", name := "A", country := "X", convictions := [], categories := ["Theft"],
    gang := "", mugshot := "", age := none, gender := "", race := "", emotion := "" }

/-- A concrete group holding only `personTheft`. -/
def groupTheft : LocationGroup := ⟨⟨0, 1⟩, ⟨0, 1⟩, "Loc", [personTheft]⟩

/-- C2, counterexample: a present-but-empty `category` query value is
neither omitted nor `"all"`, and no person's categories contain `""`, so by
the claim the response should be the empty sequence; the code's
`if (category && category !== 'all')` treats `""` as falsy and returns the
full sequence instead. -/
theorem c2_counterexample :
    (∀ p ∈ groupTheft.people, "" ∉ p.categories) ∧
    apiLocations [groupTheft] (some "") = [groupTheft] ∧
    [groupTheft] ≠ ([] : List LocationGroup) := by
  refine ⟨by decide, by decide, by decide⟩

theorem filter_contains_nil_iff (c : String) (ps : List Person) :
    ps.filter (fun p => p.categories.contains c) = [] ↔ ∀ p ∈ ps, c ∉ p.categories := by
  rw [List.filter_eq_nil_iff]
  constructor
  · intro h p hp hmem
    exact h p hp (by simpa using hmem)
  · intro h p hp
    simpa using h p hp

theorem filterByCategory_eq_filterMap (locs : List LocationGroup) (c : String) :
    filterByCategory locs c = locs.filterMap (fun g =>
      if (g.people.filter (fun p => p.categories.contains c)).length = 0 then none
      else some { g with people := g.people.filter (fun p => p.categories.contains c) }) := by
  induction locs with
  | nil => rfl
  | cons g t ih =>
    by_cases h : ∃ x ∈ g.people, c ∈ x.categories
    · obtain ⟨x, hx, hcx⟩ := h
      have hxf : x ∈ g.people.filter (fun p => p.categories.contains c) :=
        List.mem_filter.mpr ⟨hx, by simpa using hcx⟩
      have hpos := List.length_pos_of_mem hxf
      have hlen : ¬ (g.people.filter (fun p => p.categories.contains c)).length = 0 :=
        Nat.pos_iff_ne_zero.mp hpos
      unfold filterByCategory at ih ⊢
      rw [List.map_cons, List.filter_cons, List.filterMap_cons,
        if_pos (by simpa using hpos), if_neg hlen]
      rw [ih]
    · push_neg at h
      have hfil : g.people.filter (fun p => p.categories.contains c) = [] :=
        (filter_contains_nil_iff c g.people).mpr h
      have hlen : (g.people.filter (fun p => p.categories.contains c)).length = 0 := by
        rw [hfil]
        rfl
      unfold filterByCategory at ih ⊢
      rw [List.map_cons, List.filter_cons, List.filterMap_cons,
        if_neg (by simp [hfil]; exact h), if_pos hlen]
      exact ih

/-- C2, amended: `GET /api/locations` returns the full sequence when the
category parameter is omitted, empty, or `"all"`; for any other value it
returns exactly the groups with at least one person whose categories
contain the value, each group's people filtered to the matching ones; a
value matched by no person yields the empty sequence, not an error. -/
theorem c2_amended (locs : List LocationGroup) :
    apiLocations locs none = locs ∧
    apiLocations locs (some "") = locs ∧
    apiLocations locs (some "all") = locs ∧
    (∀ c : String, c ≠ "" → c ≠ "all" →
      apiLocations locs (some c) = locs.filterMap (fun g =>
        if (g.people.filter (fun p => p.categories.contains c)).length = 0 then none
        else some { g with people := g.people.filter (fun p => p.categories.contains c) })) ∧
    (∀ c : String, c ≠ "" → c ≠ "all" →
      (∀ g ∈ locs, ∀ p ∈ g.people, c ∉ p.categories) →
      apiLocations locs (some c) = []) := by
  refine ⟨rfl, by simp [apiLocations], by simp [apiLocations], ?_, ?_⟩
  · intro c hc hall
    simp only [apiLocations]
    rw [if_pos (And.intro hc hall)]
    exact filterByCategory_eq_filterMap locs c
  · intro c hc hall hnone
    simp only [apiLocations]
    rw [if_pos (And.intro hc hall), filterByCategory_eq_filterMap,
      List.filterMap_eq_nil_iff]
    intro g hg
    have hfil : g.people.filter (fun p => p.categories.contains c) = [] := by
      rw [List.filter_eq_nil_iff]
      intro p hp
      simpa using hnone g hg p hp
    rw [if_pos (by rw [List.length_eq_zero]; exact hfil)]

theorem c2_witness : apiLocations [groupTheft] (some "Z") = [] :=
  (c2_amended [groupTheft]).2.2.2.2 "Z" (by decide) (by decide) (by decide)

/-- The grouping key a group would format to (its stored coordinates are
those of the record that created it). -/
def gkeyOf (g : LocationGroup) : GroupKey := (toFixed4Key g.lat, toFixed4Key g.lng)

/-- The grouping key of a record: resolve its arrest location, format both
coordinates. -/
def recordKey (geo : List (String × Coords)) (r : Record) : GroupKey :=
  coordsKey (findCoords geo (toLowerStr r.ARRESTED))

/-- The people of the group stored under key `k` (empty when no group). -/
def lookPeople (gs : List (GroupKey × LocationGroup)) (k : GroupKey) : List Person :=
  ((gs.find? (fun e => decide (e.1 = k))).map (fun e => e.2.people)).getD []

/-- The people of the first output group whose key formats to `k` (group
keys are pairwise distinct, so "first" is "the"). -/
def peopleAt (ls : List LocationGroup) (k : GroupKey) : List Person :=
  ((ls.find? (fun g => decide (gkeyOf g = k))).map (fun g => g.people)).getD []

/-- The stored keys of the group association list. -/
def keysOf (gs : List (GroupKey × LocationGroup)) : List GroupKey := gs.map (fun e => e.1)

theorem lookPeople_push (gs : List (GroupKey × LocationGroup)) (k k' : GroupKey)
    (c : Coords) (loc : String) (p : Person) :
    lookPeople (pushPerson gs k c loc p) k' =
      if k' = k then lookPeople gs k' ++ [p] else lookPeople gs k' := by
  induction gs with
  | nil =>
    by_cases h : k' = k
    · simp [pushPerson, lookPeople, List.find?_cons_of_pos, h]
    · have h2 : ¬ (k = k') := fun he => h he.symm
      simp [pushPerson, lookPeople, List.find?_cons_of_neg, h2, h]
  | cons e t ih =>
    obtain ⟨k0, g⟩ := e
    by_cases h0 : k0 = k
    · subst h0
      by_cases h : k' = k0
      · subst h
        simp [pushPerson, lookPeople, List.find?_cons_of_pos]
      · have h2 : ¬ (k0 = k') := fun he => h he.symm
        simp [pushPerson, lookPeople, List.find?_cons_of_neg, h2, h]
    · by_cases h : k' = k0
      · have h2 : ¬ (k' = k) := fun he => h0 (h.symm.trans he)
        simp only [pushPerson, if_neg h0, lookPeople]
        rw [List.find?_cons_of_pos _ (by simp [h]), List.find?_cons_of_pos _ (by simp [h])]
        simp [h2]
      · have h2 : ¬ (k0 = k') := fun he => h he.symm
        simp only [pushPerson, if_neg h0, lookPeople]
        rw [List.find?_cons_of_neg _ (by simp [h2]), List.find?_cons_of_neg _ (by simp [h2])]
        simpa only [lookPeople] using ih

theorem stepRecord_groups (geo : List (String × Coords)) (s : AggState) (r : Record) :
    (stepRecord geo s r).locationGroups =
      pushPerson s.locationGroups (recordKey geo r)
        (findCoords geo (toLowerStr r.ARRESTED)) r.ARRESTED (mkPerson r) := by
  simp only [stepRecord, recordKey]
  repeat' split
  all_goals rfl

theorem lookPeople_foldl (geo : List (String × Coords)) (rs : List Record)
    (s : AggState) (k : GroupKey) :
    lookPeople (rs.foldl (stepRecord geo) s).locationGroups k =
      lookPeople s.locationGroups k ++
        (rs.filter (fun r => decide (recordKey geo r = k))).map mkPerson := by
  induction rs generalizing s with
  | nil => simp
  | cons r rs ih =>
    rw [List.foldl_cons, ih, stepRecord_groups, lookPeople_push, List.filter_cons]
    by_cases hk : recordKey geo r = k
    · have hk' : k = recordKey geo r := hk.symm
      rw [if_pos hk']
      simp [hk]
    · have hk' : ¬ (k = recordKey geo r) := fun he => hk he.symm
      rw [if_neg hk']
      simp [hk]

theorem pushPerson_keyInv (gs : List (GroupKey × LocationGroup)) (c : Coords)
    (loc : String) (p : Person) (hgs : ∀ e ∈ gs, gkeyOf e.2 = e.1) :
    ∀ e ∈ pushPerson gs (coordsKey c) c loc p, gkeyOf e.2 = e.1 := by
  induction gs with
  | nil =>
    intro e he
    simp [pushPerson] at he
    subst he
    rfl
  | cons e0 t ih =>
    obtain ⟨k0, g⟩ := e0
    by_cases h0 : k0 = coordsKey c
    · intro e he
      simp only [pushPerson, if_pos h0] at he
      rcases List.mem_cons.mp he with h | h
      · subst h
        exact hgs (k0, g) (List.mem_cons_self _ _)
      · exact hgs e (List.mem_cons_of_mem _ h)
    · intro e he
      simp only [pushPerson, if_neg h0] at he
      rcases List.mem_cons.mp he with h | h
      · subst h
        exact hgs (k0, g) (List.mem_cons_self _ _)
      · exact ih (fun e' he' => hgs e' (List.mem_cons_of_mem _ he')) e h

theorem keysOf_push (gs : List (GroupKey × LocationGroup)) (k : GroupKey) (c : Coords)
    (loc : String) (p : Person) :
    keysOf (pushPerson gs k c loc p) =
      if k ∈ keysOf gs then keysOf gs else keysOf gs ++ [k] := by
  induction gs with
  | nil => simp [pushPerson, keysOf]
  | cons e t ih =>
    obtain ⟨k0, g⟩ := e
    by_cases h0 : k0 = k
    · subst h0
      simp [pushPerson, keysOf]
    · have h2 : ¬ (k = k0) := fun he => h0 he.symm
      simp only [pushPerson, if_neg h0, keysOf, List.map_cons] at ih ⊢
      rw [ih]
      by_cases hm : k ∈ List.map (fun e => e.1) t
      · simp [hm, h2]
      · simp [hm, h2]

theorem keysOf_push_nodup (gs : List (GroupKey × LocationGroup)) (k : GroupKey)
    (c : Coords) (loc : String) (p : Person) (h : (keysOf gs).Nodup) :
    (keysOf (pushPerson gs k c loc p)).Nodup := by
  rw [keysOf_push]
  by_cases hm : k ∈ keysOf gs
  · simpa [hm]
  · simp [hm, List.nodup_append, h]

theorem foldl_keyInv (geo : List (String × Coords)) (rs : List Record) (s : AggState)
    (hs : ∀ e ∈ s.locationGroups, gkeyOf e.2 = e.1) :
    ∀ e ∈ (rs.foldl (stepRecord geo) s).locationGroups, gkeyOf e.2 = e.1 := by
  induction rs generalizing s with
  | nil => exact hs
  | cons r rs ih =>
    rw [List.foldl_cons]
    refine ih _ ?_
    rw [stepRecord_groups]
    exact pushPerson_keyInv s.locationGroups _ _ _ hs

theorem foldl_keysNodup (geo : List (String × Coords)) (rs : List Record) (s : AggState)
    (hs : (keysOf s.locationGroups).Nodup) :
    (keysOf (rs.foldl (stepRecord geo) s).locationGroups).Nodup := by
  induction rs generalizing s with
  | nil => exact hs
  | cons r rs ih =>
    rw [List.foldl_cons]
    refine ih _ ?_
    rw [stepRecord_groups]
    exact keysOf_push_nodup _ _ _ _ _ hs

theorem mapKeys_eq (gs : List (GroupKey × LocationGroup))
    (hinv : ∀ e ∈ gs, gkeyOf e.2 = e.1) :
    (gs.map (fun e => e.2)).map gkeyOf = keysOf gs := by
  induction gs with
  | nil => rfl
  | cons e t ih =>
    simp only [List.map_cons, keysOf] at ih ⊢
    rw [hinv e (List.mem_cons_self _ _),
      ih (fun e' he' => hinv e' (List.mem_cons_of_mem _ he'))]

theorem peopleAt_eq_lookPeople (gs : List (GroupKey × LocationGroup))
    (hinv : ∀ e ∈ gs, gkeyOf e.2 = e.1) (k : GroupKey) :
    peopleAt (gs.map (fun e => e.2)) k = lookPeople gs k := by
  induction gs with
  | nil => rfl
  | cons e t ih =>
    obtain ⟨k0, g⟩ := e
    have hk0 : gkeyOf g = k0 := hinv (k0, g) (List.mem_cons_self _ _)
    by_cases h : k0 = k
    · simp only [peopleAt, lookPeople, List.map_cons]
      rw [List.find?_cons_of_pos _ (by simp [hk0, h]),
        List.find?_cons_of_pos _ (by simp [h])]
      rfl
    · simp only [peopleAt, lookPeople, List.map_cons]
      rw [List.find?_cons_of_neg _ (by simp [hk0, h]),
        List.find?_cons_of_neg _ (by simp [h])]
      simpa only [peopleAt, lookPeople] using
        ih (fun e' he' => hinv e' (List.mem_cons_of_mem _ he'))

/-- C3, amended: the output groups carry pairwise distinct formatted keys
(`toFixed(4)` of both coordinates, sign included), and the group whose key
is `k` holds exactly the persons of the records whose resolved coordinates
format to `k`, in input order.  So two records share a group iff their
coordinates format identically; a negative coordinate rounding to zero
formats as `-0.0000` and is kept apart from `0.0000` even though the
rounded numeric values coincide (see the counterexample). -/
theorem c3_amended (geo : List (String × Coords)) (records : List Record) :
    ((processData geo records).locations.map gkeyOf).Nodup ∧
    ∀ k : GroupKey, peopleAt (processData geo records).locations k =
      (records.filter (fun r => decide (recordKey geo r = k))).map mkPerson := by
  constructor
  · show ((((records.foldl (stepRecord geo) initAggState)).locationGroups.map
      (fun e => e.2)).map gkeyOf).Nodup
    rw [mapKeys_eq _ (foldl_keyInv geo records initAggState (by simp [initAggState]))]
    exact foldl_keysNodup geo records initAggState (by simp [initAggState, keysOf])
  · intro k
    show peopleAt ((records.foldl (stepRecord geo) initAggState).locationGroups.map
      (fun e => e.2)) k = _
    rw [peopleAt_eq_lookPeople _ (foldl_keyInv geo records initAggState
      (by simp [initAggState])), lookPeople_foldl]
    simp [initAggState, lookPeople]

/-- The geocode mapping of the C3 counterexample: two locations whose
latitudes `-0.00001` and `0.00001` both round to zero at 4 decimals but
format with opposite signs. -/
def geoSigned : List (String × Coords) :=
  [("a", ⟨⟨-1, 100000⟩, ⟨10, 1⟩⟩), ("b", ⟨⟨1, 100000⟩, ⟨10, 1⟩⟩)]

/-- A record arrested at the first signed location. -/
def rSignedA : Record := { emptyRecord with NAME := "A", ARRESTED := "a" }

/-- A record arrested at the second signed location. -/
def rSignedB : Record := { emptyRecord with NAME := "B", ARRESTED := "b" }

/-- C3, counterexample: the two records' resolved coordinates round to the
same 4-decimal numeric pair (0, 10), yet no output group contains both
people — the code keys groups by the `toFixed(4)` strings, and
`(-0.00001).toFixed(4)` is `"-0.0000"` while `(0.00001).toFixed(4)` is
`"0.0000"`. -/
theorem c3_counterexample :
    (keyNum (toFixed4Key (findCoords geoSigned (toLowerStr rSignedA.ARRESTED)).lat) =
       keyNum (toFixed4Key (findCoords geoSigned (toLowerStr rSignedB.ARRESTED)).lat) ∧
     keyNum (toFixed4Key (findCoords geoSigned (toLowerStr rSignedA.ARRESTED)).lng) =
       keyNum (toFixed4Key (findCoords geoSigned (toLowerStr rSignedB.ARRESTED)).lng)) ∧
    (∀ g ∈ (processData geoSigned [rSignedA, rSignedB]).locations,
      ¬(mkPerson rSignedA ∈ g.people ∧ mkPerson rSignedB ∈ g.people)) ∧
    (processData geoSigned [rSignedA, rSignedB]).locations.length = 2 := by
  decide

theorem parsePseudoList_eq_pipeline (s : String) :
    parsePseudoList s =
      ((splitComma (stripBrq s.toList)).map (fun p => String.mk (trimChars p))).filter
        (fun t => !(t = "")) := by
  by_cases h : s = ""
  · subst h
    rfl
  · simp [parsePseudoList, h]

/-- C4: the pseudo-list parser strips bracket and quote characters, splits
on commas, trims each piece, drops empty pieces (so it never errors on any
string), and preserves order (the result is a sublist of the trimmed
pieces); `"['Theft', 'Assault']"` parses to `["Theft", "Assault"]` and `""`
parses to `[]`. -/
theorem c4_pseudolist :
    (∀ s : String, parsePseudoList s =
      ((splitComma (stripBrq s.toList)).map (fun p => String.mk (trimChars p))).filter
        (fun t => !(t = ""))) ∧
    (∀ s t : String, t ∈ parsePseudoList s → t ≠ "") ∧
    (∀ s : String, (parsePseudoList s).Sublist
      ((splitComma (stripBrq s.toList)).map (fun p => String.mk (trimChars p)))) ∧
    parsePseudoList "['Theft', 'Assault']" = ["Theft", "Assault"] ∧
    parsePseudoList "" = [] := by
  refine ⟨parsePseudoList_eq_pipeline, ?_, ?_, by decide, by decide⟩
  · intro s t ht
    rw [parsePseudoList_eq_pipeline] at ht
    have := (List.mem_filter.mp ht).2
    simpa using this
  · intro s
    rw [parsePseudoList_eq_pipeline]
    exact List.filter_sublist _

/-- C4, witness: a piece of the parsed example list, hence nonempty. -/
theorem c4_witness : ("Theft" : String) ≠ "" :=
  c4_pseudolist.2.1 "['Theft', 'Assault']" "Theft" (by decide)

/-- The age values the code accumulates: every parsed age that is not NaN
(`!isNaN(age)`), including infinities. -/
def contribAges (rs : List Record) : List JSNum :=
  rs.filterMap (fun r =>
    match parseFloatJS r.DEEPFACE_age with
    | JSNum.nan => none
    | a => some a)

/-- The age values the claim admits: ages that parse as finite numbers. -/
def finiteParsedAges (rs : List Record) : List Frac :=
  rs.filterMap (fun r =>
    match parseFloatJS r.DEEPFACE_age with
    | JSNum.num q => some q
    | _ => none)

/-- JS summation `totalAge += age` starting from 0. -/
def jsSum (l : List JSNum) : JSNum := l.foldl jsAdd (JSNum.num (Frac.ofInt 0))

theorem stepRecord_totalWithAge (geo : List (String × Coords)) (s : AggState) (r : Record) :
    (stepRecord geo s r).totalWithAge =
      if jsIsNaN (parseFloatJS r.DEEPFACE_age) then s.totalWithAge
      else s.totalWithAge + 1 := by
  simp only [stepRecord]
  repeat' split
  all_goals simp_all

theorem stepRecord_totalAge (geo : List (String × Coords)) (s : AggState) (r : Record) :
    (stepRecord geo s r).totalAge =
      if jsIsNaN (parseFloatJS r.DEEPFACE_age) then s.totalAge
      else jsAdd s.totalAge (parseFloatJS r.DEEPFACE_age) := by
  simp only [stepRecord]
  repeat' split
  all_goals simp_all

theorem contribAges_cons (r : Record) (rs : List Record) :
    contribAges (r :: rs) =
      if jsIsNaN (parseFloatJS r.DEEPFACE_age) then contribAges rs
      else parseFloatJS r.DEEPFACE_age :: contribAges rs := by
  cases hpf : parseFloatJS r.DEEPFACE_age with
  | nan => simp [contribAges, List.filterMap_cons, hpf, jsIsNaN]
  | inf b => simp [contribAges, List.filterMap_cons, hpf, jsIsNaN]
  | num q => simp [contribAges, List.filterMap_cons, hpf, jsIsNaN]

theorem foldl_age (geo : List (String × Coords)) (rs : List Record) (s : AggState) :
    (rs.foldl (stepRecord geo) s).totalWithAge = s.totalWithAge + (contribAges rs).length ∧
    (rs.foldl (stepRecord geo) s).totalAge = (contribAges rs).foldl jsAdd s.totalAge := by
  induction rs generalizing s with
  | nil => simp [contribAges]
  | cons r rs ih =>
    rw [List.foldl_cons, contribAges_cons]
    have h := ih (stepRecord geo s r)
    by_cases hn : jsIsNaN (parseFloatJS r.DEEPFACE_age)
    · rw [if_pos hn]
      refine ⟨?_, ?_⟩
      · rw [h.1, stepRecord_totalWithAge, if_pos hn]
      · rw [h.2, stepRecord_totalAge, if_pos hn]
    · rw [if_neg hn]
      refine ⟨?_, ?_⟩
      · rw [h.1, stepRecord_totalWithAge, if_neg hn, List.length_cons]
        omega
      · rw [h.2, stepRecord_totalAge, if_neg hn, List.foldl_cons]

/-- C5, amended: an age contributes to the accumulation exactly when it
parses as a number other than NaN — the literal `Infinity` also contributes
— and `avgAge` is the 1-decimal `toFixed` formatting of the JS quotient of
the accumulated sum by the contributor count (so a non-finite sum renders
as `Infinity`, `-Infinity` or `NaN`), or the sentinel `"N/A"` when no age
contributes. -/
theorem c5_avg_age_amended (geo : List (String × Coords)) (records : List Record) :
    (processData geo records).stats.avgAge =
      if (contribAges records).length = 0 then "N/A"
      else toFixedJS 1 (jsDiv (jsSum (contribAges records))
        (JSNum.num (Frac.ofInt ((contribAges records).length : Int)))) := by
  have h := foldl_age geo records initAggState
  show (if 0 < (records.foldl (stepRecord geo) initAggState).totalWithAge
    then toFixedJS 1 (jsDiv (records.foldl (stepRecord geo) initAggState).totalAge
      (JSNum.num (Frac.ofInt ((records.foldl (stepRecord geo) initAggState).totalWithAge : Int))))
    else "N/A") = _
  rw [h.1, h.2]
  by_cases hz : (contribAges records).length = 0
  · rw [if_neg (by simp [initAggState, hz]), if_pos hz]
  · rw [if_pos (by simp [initAggState]; omega), if_neg hz]
    simp [initAggState, jsSum]

/-- A record whose age field is the literal `Infinity`. -/
def rAgeInf : Record := { emptyRecord with DEEPFACE_age := "Infinity" }

/-- A record whose age field is `30`. -/
def rAge30 : Record := { emptyRecord with DEEPFACE_age := "30" }

/-- C5, counterexample: with ages `"Infinity"` and `"30"`, the only age
that parses as a finite number is 30, whose 1-decimal mean would be
`"30.0"`; but `parseFloat("Infinity")` is not NaN, so the code also
accumulates the infinity and serves `avgAge = "Infinity"` — neither the
mean of the finite ages nor the `"N/A"` sentinel. -/
theorem c5_counterexample :
    finiteParsedAges [rAgeInf, rAge30] = [⟨30, 1⟩] ∧
    toFixedJS 1 (JSNum.num ⟨30, 1⟩) = "30.0" ∧
    (processData [] [rAgeInf, rAge30]).stats.avgAge = "Infinity" ∧
    (processData [] [rAgeInf, rAge30]).stats.avgAge ≠ toFixedJS 1 (JSNum.num ⟨30, 1⟩) ∧
    (processData [] [rAgeInf, rAge30]).stats.avgAge ≠ "N/A" := by
  decide

/-- C6: coordinate resolution — an exact (case-insensitively keyed) lookup
hit is used as-is; otherwise the first geocode entry whose name is a
substring of the arrest location or vice versa; otherwise the fixed default
(39.8283, -98.5795).  Being a total function, resolution never errors. -/
theorem c6_resolution (geo : List (String × Coords)) (al : String) :
    (∀ c : Coords, jsObjGet geo al = some c → findCoords geo al = c) ∧
    (jsObjGet geo al = none →
      ∀ e : String × Coords,
        geo.find? (fun kv => strIncludes al.toList kv.1.toList ||
          strIncludes kv.1.toList al.toList) = some e →
        findCoords geo al = e.2) ∧
    (jsObjGet geo al = none →
      geo.find? (fun kv => strIncludes al.toList kv.1.toList ||
        strIncludes kv.1.toList al.toList) = none →
      findCoords geo al = ⟨⟨398283, 10000⟩, ⟨-985795, 10000⟩⟩) := by
  refine ⟨?_, ?_, ?_⟩
  · intro c h
    simp [findCoords, h]
  · intro h e he
    simp only [String.toList] at he
    simp [findCoords, h, he]
  · intro h he
    simp only [String.toList] at he
    simp [findCoords, h, he]

/-- C6, witness: a record arrested at an unmapped location (no exact and no
substring match) resolves to the continental-US default. -/
theorem c6_witness :
    findCoords [("springfield", ⟨⟨398, 10⟩, ⟨-896, 10⟩⟩)] "unknown city" =
      ⟨⟨398283, 10000⟩, ⟨-985795, 10000⟩⟩ :=
  (c6_resolution [("springfield", ⟨⟨398, 10⟩, ⟨-896, 10⟩⟩)] "unknown city").2.2
    (by decide) (by decide)

theorem jsObjGet_set {α : Type} (m : List (String × α)) (k k' : String) (v : α) :
    jsObjGet (jsObjSet m k v) k' = if k' = k then some v else jsObjGet m k' := by
  induction m with
  | nil =>
    by_cases h : k' = k
    · simp [jsObjSet, jsObjGet, List.find?_cons_of_pos, h]
    · have h2 : ¬ (k = k') := fun he => h he.symm
      simp [jsObjSet, jsObjGet, List.find?_cons_of_neg, h2, h]
  | cons e t ih =>
    obtain ⟨k0, v0⟩ := e
    by_cases h0 : k0 = k
    · subst h0
      by_cases h : k' = k0
      · subst h
        simp [jsObjSet, jsObjGet, List.find?_cons_of_pos]
      · have h2 : ¬ (k0 = k') := fun he => h he.symm
        simp [jsObjSet, jsObjGet, List.find?_cons_of_neg, h2, h]
    · by_cases h : k' = k0
      · have h2 : ¬ (k' = k) := fun he => h0 (h.symm.trans he)
        simp only [jsObjSet, if_neg h0, jsObjGet]
        rw [List.find?_cons_of_pos _ (by simp [h]), List.find?_cons_of_pos _ (by simp [h])]
        simp [h2]
      · have h2 : ¬ (k0 = k') := fun he => h he.symm
        simp only [jsObjSet, if_neg h0, jsObjGet]
        rw [List.find?_cons_of_neg _ (by simp [h2]), List.find?_cons_of_neg _ (by simp [h2])]
        simpa only [jsObjGet] using ih

theorem geoFold_get (l : List (List Char × List Char × List Char))
    (m : List (String × Coords)) (k : String) :
    jsObjGet (l.foldl (fun m t => jsObjSet m (geoKeyOfMatch t) (geoValOfMatch t)) m) k =
      ((l.filter (fun t => decide (geoKeyOfMatch t = k))).getLast?.map
        (fun t => some (geoValOfMatch t))).getD (jsObjGet m k) := by
  induction l generalizing m with
  | nil => simp
  | cons t ts ih =>
    rw [List.foldl_cons, ih, List.filter_cons]
    by_cases h : geoKeyOfMatch t = k
    · rw [if_pos (by simp [h])]
      cases hl : (ts.filter (fun t => decide (geoKeyOfMatch t = k))).getLast? with
      | none =>
        have hk : k = geoKeyOfMatch t := h.symm
        have hfil : ts.filter (fun t2 => decide (geoKeyOfMatch t2 = k)) = [] := by
          simpa using hl
        have hfind : ts.reverse.find?
            (fun t2 => decide (geoKeyOfMatch t2 = geoKeyOfMatch t)) = none := by
          rw [List.find?_eq_none]
          intro a ha
          have h3 := (List.filter_eq_nil_iff.mp hfil) a (List.mem_reverse.mp ha)
          simpa [h] using h3
        simp [List.getLast?_cons, hl, jsObjGet_set, hk, hfind]
      | some t2 =>
        simp [List.getLast?_cons, hl]
    · rw [if_neg (by simp [h])]
      have h2 : ¬ (k = geoKeyOfMatch t) := fun he => h he.symm
      simp [jsObjGet_set, h2]

theorem isDigit_not_jsWs (c : Char) (h : c.isDigit = true) : jsWs c = false := by
  by_contra hw
  have hw2 : jsWs c = true := by
    cases hjs : jsWs c
    · exact absurd hjs hw
    · rfl
  simp only [jsWs, decide_eq_true_eq] at hw2
  rcases hw2 with h1|h1|h1|h1|h1|h1|h1|h1|h1|h1 <;> subst h1 <;> exact absurd h (by decide)

theorem isDigit_ne_of (c : Char) (h : c.isDigit = true) :
    c ≠ '-' ∧ c ≠ '+' ∧ c ≠ 'I' := by
  refine ⟨?_, ?_, ?_⟩ <;> intro he <;> subst he <;> exact absurd h (by decide)

theorem parseFloat_headDigit (d : Char) (rest : List Char) (hd : d.isDigit = true) :
    ∃ q, parseFloatJS (String.mk (d :: rest)) = JSNum.num q := by
  obtain ⟨h1, h2, h3⟩ := isDigit_ne_of d hd
  have hw : jsWs d = false := isDigit_not_jsWs d hd
  have h1' : ¬ (some d = some '-') := by simp [h1]
  have h2' : ¬ (some d = some '+') := by simp [h2]
  have h3' : ¬ ('I' = d) := fun he => h3 he.symm
  have hInf : "Infinity".toList = 'I' :: "nfinity".toList := rfl
  simp only [parseFloatJS, String.toList, List.dropWhile_cons, hw, Bool.false_eq_true,
    if_false, parseSign, List.head?_cons, h1', h2', if_neg, hInf, isPrefixList,
    List.takeWhile_cons, hd, if_true, List.isEmpty_cons, Bool.false_and]
  simp [h3']

theorem parseFloat_negHeadDigit (d : Char) (rest : List Char) (hd : d.isDigit = true) :
    ∃ q, parseFloatJS (String.mk ('-' :: d :: rest)) = JSNum.num q := by
  obtain ⟨h1, h2, h3⟩ := isDigit_ne_of d hd
  have h3' : ¬ ('I' = d) := fun he => h3 he.symm
  have hwm : jsWs '-' = false := by decide
  have hInf : "Infinity".toList = 'I' :: "nfinity".toList := rfl
  simp only [parseFloatJS, String.toList, List.dropWhile_cons, hwm, Bool.false_eq_true,
    if_false, parseSign, List.head?_cons, List.tail_cons, if_pos, hInf, isPrefixList,
    List.takeWhile_cons, hd, if_true, List.isEmpty_cons, Bool.false_and]
  simp [h3']

theorem parseNum_float (cs m r : List Char) (h : parseNum cs = some (m, r)) :
    ∃ q, parseFloatJS (String.mk m) = JSNum.num q := by
  simp only [parseNum] at h
  by_cases hneg : cs.head? = some '-'
  · simp only [if_pos hneg] at h
    cases hip3 : cs.tail.takeWhile Char.isDigit with
    | nil =>
      rw [hip3] at h
      simp at h
    | cons d ipt =>
      have hd : d.isDigit = true := by
        have hmem : d ∈ cs.tail.takeWhile Char.isDigit := by
          rw [hip3]
          exact List.mem_cons_self _ _
        exact List.mem_takeWhile_imp hmem
      rw [hip3] at h
      rw [if_neg (by simp)] at h
      simp only [Option.some.injEq, Prod.mk.injEq] at h
      obtain ⟨hm, hr⟩ := h
      subst hm
      simp only [List.append_assoc, List.cons_append, List.singleton_append]
      exact parseFloat_negHeadDigit d _ hd
  · simp only [if_neg hneg] at h
    cases hip3 : cs.takeWhile Char.isDigit with
    | nil =>
      rw [hip3] at h
      simp at h
    | cons d ipt =>
      have hd : d.isDigit = true := by
        have hmem : d ∈ cs.takeWhile Char.isDigit := by
          rw [hip3]
          exact List.mem_cons_self _ _
        exact List.mem_takeWhile_imp hmem
      rw [hip3] at h
      rw [if_neg (by simp)] at h
      simp only [Option.some.injEq, Prod.mk.injEq] at h
      obtain ⟨hm, hr⟩ := h
      subst hm
      simp only [List.append_assoc, List.cons_append, List.nil_append]
      exact parseFloat_headDigit d _ hd

theorem parseTail_nums (cs la ln rest : List Char)
    (h : parseTail cs = some (la, ln, rest)) :
    (∃ cs2 r2, parseNum cs2 = some (la, r2)) ∧
    (∃ cs2 r2, parseNum cs2 = some (ln, r2)) := by
  unfold parseTail at h
  by_cases h1 : cs.head? = some ':'
  · rw [if_pos h1] at h
    by_cases h2 : (cs.tail.dropWhile jsWs).head? = some '('
    · rw [if_pos h2] at h
      cases hpn : parseNum (cs.tail.dropWhile jsWs).tail with
      | none =>
        rw [hpn] at h
        simp at h
      | some p =>
        obtain ⟨la2, cs4⟩ := p
        rw [hpn] at h
        simp only [] at h
        by_cases h3 : cs4.head? = some ','
        · rw [if_pos h3] at h
          cases hpn2 : parseNum (cs4.tail.dropWhile jsWs) with
          | none =>
            rw [hpn2] at h
            simp at h
          | some p2 =>
            obtain ⟨ln2, cs7⟩ := p2
            rw [hpn2] at h
            simp only [] at h
            by_cases h4 : cs7.head? = some ')'
            · rw [if_pos h4] at h
              simp only [Option.some.injEq, Prod.mk.injEq] at h
              obtain ⟨hla, hln, hrest⟩ := h
              subst hla
              subst hln
              exact ⟨⟨_, _, hpn⟩, ⟨_, _, hpn2⟩⟩
            · rw [if_neg h4] at h
              simp at h
        · rw [if_neg h3] at h
          simp at h
    · rw [if_neg h2] at h
      simp at h
  · rw [if_neg h1] at h
    simp at h

theorem tryGroup_nums (cs : List Char) : ∀ (acc g la ln r : List Char),
    tryGroup cs acc = some (g, la, ln, r) →
    ∃ cs2, parseTail cs2 = some (la, ln, r) := by
  induction cs with
  | nil =>
    intro acc g la ln r h
    simp [tryGroup] at h
  | cons c rest ih =>
    intro acc g la ln r h
    unfold tryGroup at h
    by_cases hc : isDotChar c = true
    · rw [if_pos hc] at h
      cases hpt : parseTail rest with
      | some p =>
        obtain ⟨la2, ln2, r2⟩ := p
        rw [hpt] at h
        simp only [Option.some.injEq, Prod.mk.injEq] at h
        obtain ⟨hg, hla, hln, hr⟩ := h
        subst hla
        subst hln
        subst hr
        exact ⟨rest, hpt⟩
      | none =>
        rw [hpt] at h
        exact ih _ _ _ _ _ h
    · rw [if_neg hc] at h
      simp at h

theorem tryWsBack_nums (cs1 : List Char) : ∀ (j : Nat) (g la ln r : List Char),
    tryWsBack cs1 j = some (g, la, ln, r) →
    ∃ cs2, parseTail cs2 = some (la, ln, r) := by
  intro j
  induction j with
  | zero =>
    intro g la ln r h
    exact tryGroup_nums _ _ _ _ _ _ h
  | succ j ih =>
    intro g la ln r h
    unfold tryWsBack at h
    cases hg : tryGroup (cs1.drop (j + 1)) [] with
    | some p =>
      obtain ⟨g2, la2, ln2, r2⟩ := p
      rw [hg] at h
      simp only [Option.some.injEq, Prod.mk.injEq] at h
      obtain ⟨hgg, hla, hln, hr⟩ := h
      subst hla
      subst hln
      subst hr
      exact tryGroup_nums _ _ _ _ _ _ hg
    | none =>
      rw [hg] at h
      exact ih _ _ _ _ h

theorem matchCheck_nums (cs g la ln r : List Char)
    (h : matchCheck cs = some (g, la, ln, r)) :
    ∃ cs2, parseTail cs2 = some (la, ln, r) := by
  unfold matchCheck at h
  by_cases hc : cs.head? = some '✓'
  · rw [if_pos hc] at h
    exact tryWsBack_nums _ _ _ _ _ _ h
  · rw [if_neg hc] at h
    simp at h

theorem findAllAux_nums (fuel : Nat) : ∀ (cs : List Char),
    ∀ t ∈ findAllAux fuel cs,
      (∃ cs2 r2, parseNum cs2 = some (t.2.1, r2)) ∧
      (∃ cs2 r2, parseNum cs2 = some (t.2.2, r2)) := by
  induction fuel with
  | zero =>
    intro cs t ht
    simp [findAllAux] at ht
  | succ fuel ih =>
    intro cs t ht
    cases cs with
    | nil => simp [findAllAux] at ht
    | cons c cs' =>
      unfold findAllAux at ht
      cases hm : matchCheck (c :: cs') with
      | some p =>
        obtain ⟨g, la, ln, rest⟩ := p
        rw [hm] at ht
        rcases List.mem_cons.mp ht with he | ht2
        · subst he
          obtain ⟨cs2, hpt⟩ := matchCheck_nums _ _ _ _ _ hm
          obtain ⟨hla, hln⟩ := parseTail_nums _ _ _ _ hpt
          exact ⟨hla, hln⟩
        · exact ih rest t ht2
      | none =>
        rw [hm] at ht
        exact ih cs' t ht

/-- C7: the geocode loader is keyed by the lowercased trimmed matched name
with (a) lookups returning the value of the last matching occurrence (last
write wins); (b) content with no pattern match produces the empty mapping,
not a failure; and (c) the matched latitude/longitude strings (shape
`-?\d+\.?\d*`) always parse to finite floats — the stored value is exactly
their `parseFloat`. -/
theorem c7_geocode_loader (content : String) :
    (∀ k : String, jsObjGet (parseGeocodeLocations content) k =
      ((findAllMatches content).filter
        (fun t => decide (geoKeyOfMatch t = k))).getLast?.map geoValOfMatch) ∧
    (findAllMatches content = [] → parseGeocodeLocations content = []) ∧
    (∀ t ∈ findAllMatches content,
      parseFloatJS (String.mk t.2.1) = JSNum.num (parseFloatNum (String.mk t.2.1)) ∧
      parseFloatJS (String.mk t.2.2) = JSNum.num (parseFloatNum (String.mk t.2.2))) := by
  refine ⟨?_, ?_, ?_⟩
  · intro k
    have h := geoFold_get (findAllMatches content) [] k
    unfold parseGeocodeLocations
    rw [h]
    cases hl : ((findAllMatches content).filter
        (fun t => decide (geoKeyOfMatch t = k))).getLast? with
    | none => simp [jsObjGet]
    | some t => simp
  · intro h
    simp [parseGeocodeLocations, h]
  · intro t ht
    obtain ⟨⟨cs2, r2, hp1⟩, ⟨cs3, r3, hp2⟩⟩ := findAllAux_nums _ _ t ht
    obtain ⟨q1, hq1⟩ := parseNum_float _ _ _ hp1
    obtain ⟨q2, hq2⟩ := parseNum_float _ _ _ hp2
    constructor
    · rw [hq1]
      simp [parseFloatNum, hq1]
    · rw [hq2]
      simp [parseFloatNum, hq2]

/-- C7, witness: text with no `✓`-pattern occurrence loads as the empty
mapping, and the example latitude string parses finite. -/
theorem c7_witness :
    parseGeocodeLocations "hello world" = [] ∧
    parseFloatJS (String.mk "39.8".toList) =
      JSNum.num (parseFloatNum (String.mk "39.8".toList)) :=
  ⟨(c7_geocode_loader "hello world").2.1 (by decide),
   ((c7_geocode_loader "✓ Springfield: (39.8, -89.6)").2.2
     ("Springfield".toList, "39.8".toList, "-89.6".toList) (by decide)).1⟩

/-- C8: on first access the aggregation result is computed and stored; from
any state holding a stored value, serving any sequence of requests (any
category filters) returns values computed purely from the stored data and
leaves the stored value unchanged — no handler mutates the cached
locations, categories or stats. -/
theorem c8_cache_stability (geo : List (String × Coords)) (records : List Record) :
    (∀ q : ApiRequest, serveOne geo records none q =
      (handle (processData geo records) q, some (processData geo records))) ∧
    (∀ (st : Option ProcessedData) (d : ProcessedData), st = some d →
      ∀ qs : List ApiRequest,
        serveAll geo records st qs = (qs.map (handle d), st)) := by
  constructor
  · intro q
    rfl
  · intro st d hst qs
    subst hst
    induction qs with
    | nil => rfl
    | cons q qs ih => simp [serveAll, serveOne, getData, ih]

/-- C8, witness: a concrete populated cache served two requests returns the
pure responses and the same state. -/
theorem c8_witness :
    serveAll [] [] (some (processData [] []))
        [ApiRequest.locations (some "Theft"), ApiRequest.stats] =
      ([handle (processData [] []) (ApiRequest.locations (some "Theft")),
        handle (processData [] []) ApiRequest.stats], some (processData [] [])) :=
  (c8_cache_stability [] []).2 (some (processData [] [])) (processData [] []) rfl
    [ApiRequest.locations (some "Theft"), ApiRequest.stats]

theorem sortDesc_sorted (l : List (String × Nat)) :
    (sortDesc l).Pairwise (fun a b => b.2 ≤ a.2) := by
  have htr : ∀ a b c : String × Nat, descByCount a b = true → descByCount b c = true →
      descByCount a c = true := by
    intro a b c hab hbc
    simp only [descByCount, decide_eq_true_eq] at *
    omega
  have hto : ∀ a b : String × Nat, (descByCount a b || descByCount b a) = true := by
    intro a b
    simp only [descByCount, Bool.or_eq_true, decide_eq_true_eq]
    omega
  have h := List.sorted_mergeSort htr hto l
  exact h.imp (fun hab => by simpa [descByCount] using hab)

/-- C9: the served statistics keep at most 20 top countries and 15 top
gangs, and the top-country, top-gang, category-count and race-distribution
lists are each sorted by count in descending order. -/
theorem c9_top_lists (geo : List (String × Coords)) (records : List Record) :
    (processData geo records).stats.topCountries.length ≤ 20 ∧
    (processData geo records).stats.topGangs.length ≤ 15 ∧
    (processData geo records).stats.topCountries.Pairwise (fun a b => b.2 ≤ a.2) ∧
    (processData geo records).stats.topGangs.Pairwise (fun a b => b.2 ≤ a.2) ∧
    (processData geo records).stats.topCategories.Pairwise (fun a b => b.2 ≤ a.2) ∧
    (processData geo records).stats.raceDistribution.Pairwise (fun a b => b.2 ≤ a.2) := by
  have hc : (processData geo records).stats.topCountries =
      (sortDesc ((records.foldl (stepRecord geo) initAggState).countryCounts)).take 20 := rfl
  have hg : (processData geo records).stats.topGangs =
      (sortDesc ((records.foldl (stepRecord geo) initAggState).gangCounts)).take 15 := rfl
  have hk : (processData geo records).stats.topCategories =
      sortDesc ((records.foldl (stepRecord geo) initAggState).categoryCounts) := rfl
  have hr : (processData geo records).stats.raceDistribution =
      sortDesc ((records.foldl (stepRecord geo) initAggState).raceCounts) := rfl
  refine ⟨?_, ?_, ?_, ?_, ?_, ?_⟩
  · rw [hc, List.length_take]
    exact min_le_left _ _
  · rw [hg, List.length_take]
    exact min_le_left _ _
  · rw [hc]
    exact List.Pairwise.sublist (List.take_sublist _ _) (sortDesc_sorted _)
  · rw [hg]
    exact List.Pairwise.sublist (List.take_sublist _ _) (sortDesc_sorted _)
  · rw [hk]
    exact sortDesc_sorted _
  · rw [hr]
    exact sortDesc_sorted _

/-- C10: a derived Person's age is null (`none`) exactly when the record's
age field is empty (absent cells load as the empty string); a non-empty
field that does not parse as a number yields age NaN, not null. -/
theorem c10_age_nan (r : Record) :
    ((mkPerson r).age = none ↔ r.DEEPFACE_age = "") ∧
    (r.DEEPFACE_age ≠ "" → parseFloatJS r.DEEPFACE_age = JSNum.nan →
      (mkPerson r).age = some JSNum.nan) := by
  constructor
  · constructor
    · intro h
      by_contra hne
      simp [mkPerson, hne] at h
    · intro h
      simp [mkPerson, h]
  · intro h hn
    simp [mkPerson, h, hn]

/-- A record whose age field is a non-numeric string. -/
def rAgeBad : Record := { emptyRecord with DEEPFACE_age := "abc" }

/-- C10, witness: the age `"abc"` is non-empty and unparseable, so the
person's age is NaN. -/
theorem c10_witness : (mkPerson rAgeBad).age = some JSNum.nan :=
  (c10_age_nan rAgeBad).2 (by decide) (by decide)

theorem len_tail_le (l : List Char) : l.tail.length ≤ l.length := by
  rw [List.length_tail]
  exact Nat.sub_le _ _

theorem len_dropWhile_le (p : Char → Bool) (l : List Char) :
    (l.dropWhile p).length ≤ l.length := by
  induction l with
  | nil => simp
  | cons c t ih =>
    rw [List.dropWhile_cons]
    by_cases h : p c = true
    · simp only [h, if_true, List.length_cons]
      omega
    · simp [h]

theorem parseNum_rest_le (cs m r : List Char) (h : parseNum cs = some (m, r)) :
    r.length ≤ cs.length := by
  simp only [parseNum] at h
  by_cases hneg : cs.head? = some '-'
  · simp only [if_pos hneg] at h
    cases hip3 : cs.tail.takeWhile Char.isDigit with
    | nil =>
      rw [hip3] at h
      simp at h
    | cons d ipt =>
      rw [hip3] at h
      rw [if_neg (by simp)] at h
      simp only [Option.some.injEq, Prod.mk.injEq] at h
      obtain ⟨hm, hr⟩ := h
      subst hr
      have a3 : (cs.tail.dropWhile Char.isDigit).length ≤ cs.tail.length :=
        len_dropWhile_le _ _
      have a4 : cs.tail.length ≤ cs.length := len_tail_le cs
      by_cases hdot : (cs.tail.dropWhile Char.isDigit).head? = some '.'
      · simp only [if_pos hdot]
        have a1 : ((cs.tail.dropWhile Char.isDigit).tail.dropWhile Char.isDigit).length ≤
            (cs.tail.dropWhile Char.isDigit).tail.length := len_dropWhile_le _ _
        have a2 : (cs.tail.dropWhile Char.isDigit).tail.length ≤
            (cs.tail.dropWhile Char.isDigit).length := len_tail_le _
        omega
      · simp only [if_neg hdot]
        have a1 : ((cs.tail.dropWhile Char.isDigit).dropWhile Char.isDigit).length ≤
            (cs.tail.dropWhile Char.isDigit).length := len_dropWhile_le _ _
        omega
  · simp only [if_neg hneg] at h
    cases hip3 : cs.takeWhile Char.isDigit with
    | nil =>
      rw [hip3] at h
      simp at h
    | cons d ipt =>
      rw [hip3] at h
      rw [if_neg (by simp)] at h
      simp only [Option.some.injEq, Prod.mk.injEq] at h
      obtain ⟨hm, hr⟩ := h
      subst hr
      have a3 : (cs.dropWhile Char.isDigit).length ≤ cs.length :=
        len_dropWhile_le _ _
      by_cases hdot : (cs.dropWhile Char.isDigit).head? = some '.'
      · simp only [if_pos hdot]
        have a1 : ((cs.dropWhile Char.isDigit).tail.dropWhile Char.isDigit).length ≤
            (cs.dropWhile Char.isDigit).tail.length := len_dropWhile_le _ _
        have a2 : (cs.dropWhile Char.isDigit).tail.length ≤
            (cs.dropWhile Char.isDigit).length := len_tail_le _
        omega
      · simp only [if_neg hdot]
        have a1 : ((cs.dropWhile Char.isDigit).dropWhile Char.isDigit).length ≤
            (cs.dropWhile Char.isDigit).length := len_dropWhile_le _ _
        omega

theorem parseTail_rest_lt (cs la ln rest : List Char)
    (h : parseTail cs = some (la, ln, rest)) : rest.length < cs.length := by
  unfold parseTail at h
  by_cases h1 : cs.head? = some ':'
  · rw [if_pos h1] at h
    have hcs : 0 < cs.length := by
      cases cs with
      | nil => simp at h1
      | cons c cs' => simp
    by_cases h2 : (cs.tail.dropWhile jsWs).head? = some '('
    · rw [if_pos h2] at h
      cases hpn : parseNum (cs.tail.dropWhile jsWs).tail with
      | none =>
        rw [hpn] at h
        simp at h
      | some p =>
        obtain ⟨la2, cs4⟩ := p
        rw [hpn] at h
        simp only [] at h
        by_cases h3 : cs4.head? = some ','
        · rw [if_pos h3] at h
          cases hpn2 : parseNum (cs4.tail.dropWhile jsWs) with
          | none =>
            rw [hpn2] at h
            simp at h
          | some p2 =>
            obtain ⟨ln2, cs7⟩ := p2
            rw [hpn2] at h
            simp only [] at h
            by_cases h4 : cs7.head? = some ')'
            · rw [if_pos h4] at h
              simp only [Option.some.injEq, Prod.mk.injEq] at h
              obtain ⟨hla, hln, hrest⟩ := h
              subst hrest
              have b1 : cs7.tail.length ≤ cs7.length := len_tail_le _
              have b2 : cs7.length ≤ (cs4.tail.dropWhile jsWs).length :=
                parseNum_rest_le _ _ _ hpn2
              have b3 : (cs4.tail.dropWhile jsWs).length ≤ cs4.tail.length :=
                len_dropWhile_le _ _
              have b4 : cs4.tail.length ≤ cs4.length := len_tail_le _
              have b5 : cs4.length ≤ (cs.tail.dropWhile jsWs).tail.length :=
                parseNum_rest_le _ _ _ hpn
              have b6 : (cs.tail.dropWhile jsWs).tail.length ≤
                  (cs.tail.dropWhile jsWs).length := len_tail_le _
              have b7 : (cs.tail.dropWhile jsWs).length ≤ cs.tail.length :=
                len_dropWhile_le _ _
              have b8 : cs.tail.length = cs.length - 1 := List.length_tail _
              omega
            · rw [if_neg h4] at h
              simp at h
        · rw [if_neg h3] at h
          simp at h
    · rw [if_neg h2] at h
      simp at h
  · rw [if_neg h1] at h
    simp at h

theorem tryGroup_rest_lt (cs : List Char) : ∀ (acc g la ln r : List Char),
    tryGroup cs acc = some (g, la, ln, r) → r.length < cs.length := by
  induction cs with
  | nil =>
    intro acc g la ln r h
    simp [tryGroup] at h
  | cons c rest ih =>
    intro acc g la ln r h
    unfold tryGroup at h
    by_cases hc : isDotChar c = true
    · rw [if_pos hc] at h
      cases hpt : parseTail rest with
      | some p =>
        obtain ⟨la2, ln2, r2⟩ := p
        rw [hpt] at h
        simp only [Option.some.injEq, Prod.mk.injEq] at h
        obtain ⟨hg, hla, hln, hr⟩ := h
        subst hr
        have := parseTail_rest_lt _ _ _ _ hpt
        simp only [List.length_cons]
        omega
      | none =>
        rw [hpt] at h
        have := ih _ _ _ _ _ h
        simp only [List.length_cons]
        omega
    · rw [if_neg hc] at h
      simp at h

theorem tryWsBack_rest_lt (cs1 : List Char) : ∀ (j : Nat) (g la ln r : List Char),
    tryWsBack cs1 j = some (g, la, ln, r) → r.length < cs1.length := by
  intro j
  induction j with
  | zero =>
    intro g la ln r h
    exact tryGroup_rest_lt _ _ _ _ _ _ h
  | succ j ih =>
    intro g la ln r h
    unfold tryWsBack at h
    cases hg : tryGroup (cs1.drop (j + 1)) [] with
    | some p =>
      obtain ⟨g2, la2, ln2, r2⟩ := p
      rw [hg] at h
      simp only [Option.some.injEq, Prod.mk.injEq] at h
      obtain ⟨hgg, hla, hln, hr⟩ := h
      subst hr
      have h1 := tryGroup_rest_lt _ _ _ _ _ _ hg
      have h2 : (cs1.drop (j + 1)).length ≤ cs1.length := by
        rw [List.length_drop]
        exact Nat.sub_le _ _
      omega
    | none =>
      rw [hg] at h
      exact ih _ _ _ _ h

theorem matchCheck_rest_lt (c : Char) (cs' g la ln r : List Char)
    (h : matchCheck (c :: cs') = some (g, la, ln, r)) : r.length < (c :: cs').length := by
  unfold matchCheck at h
  by_cases hc : (c :: cs').head? = some '✓'
  · rw [if_pos hc] at h
    have := tryWsBack_rest_lt (c :: cs').tail _ _ _ _ _ h
    simp only [List.tail_cons] at this
    simp only [List.length_cons]
    omega
  · rw [if_neg hc] at h
    simp at h

/-- The scanner's fuel argument is inessential: any fuel at least the list
length computes the same match list (each step consumes at least one
character), so `findAllMatches`'s choice of fuel = length is faithful to
the unbounded `regex.exec` loop. -/
theorem findAllAux_fuel_irrel (f1 : Nat) : ∀ (f2 : Nat) (cs : List Char),
    cs.length ≤ f1 → cs.length ≤ f2 → findAllAux f1 cs = findAllAux f2 cs := by
  induction f1 with
  | zero =>
    intro f2 cs h1 h2
    have : cs = [] := by
      cases cs with
      | nil => rfl
      | cons c cs' => simp at h1
    subst this
    cases f2 <;> simp [findAllAux]
  | succ f ih =>
    intro f2 cs h1 h2
    cases cs with
    | nil => cases f2 <;> simp [findAllAux]
    | cons c cs' =>
      cases f2 with
      | zero => simp at h2
      | succ g =>
        show findAllAux (f + 1) (c :: cs') = findAllAux (g + 1) (c :: cs')
        unfold findAllAux
        cases hm : matchCheck (c :: cs') with
        | some p =>
          obtain ⟨g0, la, ln, rest⟩ := p
          have hr := matchCheck_rest_lt _ _ _ _ _ _ hm
          simp only [List.length_cons] at hr h1 h2
          simp [ih g rest (by omega) (by omega)]
        | none =>
          simp only [List.length_cons] at h1 h2
          simp [ih g cs' (by omega) (by omega)]
